import Mathlib

/-!
Shallow embedding of the backtesting engine of `backtester.py` (class
`Backtester`).  Money amounts are modelled as rationals; Python dicts are
modelled as association lists preserving insertion order; Python exceptions
(`ValueError` for bankruptcy and duplicate buys, `KeyError` for missing
dictionary lookups) are modelled with `Except`.
-/

set_option maxRecDepth 4000

namespace Trading8

attribute [local semireducible] Rat.add Rat.sub Rat.mul Rat.inv Rat.ofScientific

/-- Symbols are the opaque dictionary keys of the signal panel. -/
abbrev Sym := String

/-- Trading days; sorted with the usual order (Python sorts date keys). -/
abbrev Day := Nat

/-- Direction of a trade, the Python strings `long` / `short`. -/
inductive TType where
  | long
  | short
deriving DecidableEq

/-- Transaction id: the Python code joins `(str(ds)[:10], symbol, entry_type)`
into a string; the triple itself is the identity. -/
structure TrxId where
  ds : Day
  symbol : Sym
  ttype : TType
deriving DecidableEq

/-- One row of a symbol's signal frame: the configured price column plus the
binary signal columns and the optional stop-loss price column. -/
structure Row where
  price : ℚ
  entry_long : ℚ
  exit_long : ℚ
  entry_short : ℚ
  exit_short : ℚ
  stop_loss : ℚ
deriving DecidableEq

/-- A purchase candidate as built by `Backtester._define_candidate`. -/
structure Candidate where
  symbol : Sym
  entry_type : TType
  price : ℚ
deriving DecidableEq

/-- A buy decision returned by the position sizer's `decide_what_to_buy`. -/
structure Trx where
  symbol : Sym
  entry_type : TType
  price : ℚ
  shares_count : ℚ
  trx_value : ℚ
  fee : ℚ
deriving DecidableEq

/-- Entry of `Backtester._owned_shares`: signed count and transaction id. -/
structure PosEntry where
  cnt : ℚ
  trx_id : TrxId
deriving DecidableEq

/-- Entry of `Backtester._trades`: fields written at buy time, and the fields
added by `_sell` (absent while the trade is open). -/
structure Trade where
  buy_ds : Day
  ttype : TType
  trx_value_no_fee : ℚ
  trx_value_with_fee : ℚ
  sell_ds : Option Day
  sell_value_no_fee : Option ℚ
  sell_value_with_fee : Option ℚ
  profit : Option ℚ
deriving DecidableEq

/-- The errors `Backtester` can raise: the bankruptcy `ValueError`, the
duplicate-position `ValueError` of `_buy`, and `KeyError` on a missing
dictionary key. -/
inductive BTError where
  | bankrupt (money : ℚ)
  | duplicatePosition (symbol : Sym) (ttype : TType)
  | keyError
deriving DecidableEq

/-- All mutable attributes set by `Backtester._reset_backtest_state`. -/
structure BState where
  owned_shares : List (Sym × PosEntry)
  available_money : ℚ
  money_from_short : List (TrxId × ℚ)
  trades : List (TrxId × Trade)
  account_value : List (Day × ℚ)
  net_account_value : List (Day × ℚ)
  rate_of_return : List (Day × ℚ)
  backup_close_prices : List (Sym × (ℚ × Day))
deriving DecidableEq

/-- The pluggable position sizer (external capability used by the engine). -/
structure Sizer where
  decide_what_to_buy : ℚ → List Candidate → ℚ → List Trx
  calculate_fee : ℚ → ℚ

/-- Immutable configuration of a `Backtester`: the prepared signal panel
(per symbol, a date-keyed list of rows of the configured price column and
signal columns), initial capital, the sizer and the stop-loss flag. -/
structure Config where
  signals : List (Sym × List (Day × Row))
  init_capital : ℚ
  sizer : Sizer
  stop_loss : Bool

/-- A `Backtester` object: configuration plus the mutable run attributes. -/
structure Backtester where
  cfg : Config
  state : BState

/-- First-match lookup in an association list (Python dict read). -/
def alookup {α β : Type} [DecidableEq α] : List (α × β) → α → Option β
  | [], _ => none
  | (a, b) :: t, k => if a = k then some b else alookup t k

/-- Dict write: replace the value at the first occurrence of the key, keeping
its position, else append the new pair (Python dict insertion order). -/
def aset {α β : Type} [DecidableEq α] : List (α × β) → α → β → List (α × β)
  | [], k, v => [(k, v)]
  | (a, b) :: t, k, v => if a = k then (a, v) :: t else (a, b) :: aset t k v

/-- Dict key removal (Python `dict.pop`). -/
def aremove {α β : Type} [DecidableEq α] (l : List (α × β)) (k : α) : List (α × β) :=
  l.filter (fun p => p.1 ≠ k)

instance {ε α : Type} [DecidableEq ε] [DecidableEq α] : DecidableEq (Except ε α) :=
  fun x y =>
    match x, y with
    | .ok a, .ok b => if h : a = b then isTrue (by rw [h]) else isFalse (by simp [h])
    | .error a, .error b => if h : a = b then isTrue (by rw [h]) else isFalse (by simp [h])
    | .ok _, .error _ => isFalse (by simp)
    | .error _, .ok _ => isFalse (by simp)

/-- Floor of a rational as an integer (numerator floor-divided by denominator). -/
def ratFloor (q : ℚ) : ℤ := q.num.fdiv q.den

/-- Python `abs` on a rational number. -/
def ratAbs (q : ℚ) : ℚ := if q < 0 then -q else q

/-- Python `round(x, 2)` on the exact rational value: round to the nearest
multiple of 1/100, ties to the even multiple (banker's rounding). -/
def round2 (q : ℚ) : ℚ :=
  let x := q * 100
  let f := ratFloor x
  let r := x - (f : ℚ)
  let n : ℤ :=
    if r < 1 / 2 then f
    else if 1 / 2 < r then f + 1
    else if f % 2 = 0 then f else f + 1
  (n : ℚ) / 100

/-- `self.signals[sym][col][ds]` with all signal columns of a symbol sharing
one frame index: the row of symbol `sym` at day `ds`. -/
def lookupRow (signals : List (Sym × List (Day × Row))) (sym : Sym) (ds : Day) : Option Row :=
  match alookup signals sym with
  | none => none
  | some rows => alookup rows ds

/-- Left fold of a fallible step, stopping at the first error (the effect of a
Python `for` loop whose body may raise). -/
def foldE {σ α ε : Type} (f : σ → α → Except ε σ) : σ → List α → Except ε σ
  | s, [] => .ok s
  | s, a :: t =>
    match f s a with
    | .ok s' => foldE f s' t
    | .error e => .error e

/-- `Backtester._reset_backtest_state`. -/
def resetState (cfg : Config) : BState :=
  { owned_shares := []
    available_money := cfg.init_capital
    money_from_short := []
    trades := []
    account_value := []
    net_account_value := []
    rate_of_return := []
    backup_close_prices := [] }

/-- `symbols_in_day[ds]`: the symbols whose price column has day `ds`, in
signal-panel order (built by the loop at the start of `Backtester.run`). -/
def symbolsInDay (cfg : Config) (ds : Day) : List Sym :=
  (cfg.signals.filter (fun p => (alookup p.2 ds).isSome)).map Prod.fst

/-- The union of all symbols' price-column days, as a duplicate-free list in
first-occurrence order (the keys of `symbols_in_day`). -/
def allDays (cfg : Config) : List Day :=
  ((cfg.signals.map (fun p => p.2.map Prod.fst)).flatten).dedup

/-- `days = sorted(symbols_in_day.keys())`. -/
def tradingDays (cfg : Config) : List Day :=
  (allDays cfg).insertionSort (· ≤ ·)

/-- The day sequence actually iterated: `if test_days: days = days[:test_days]`
(note Python truthiness: `test_days = 0` does not truncate). -/
def runDays (cfg : Config) (test_days : Option Nat) : List Day :=
  match test_days with
  | none => tradingDays cfg
  | some n => if n = 0 then tradingDays cfg else (tradingDays cfg).take n

/-- `Backtester._sell`. -/
def sell (fee_fn : ℚ → ℚ) (s : BState) (symbol : Sym) (price : ℚ) (ds : Day)
    (exit_type : TType) : Except BTError BState :=
  match alookup s.owned_shares symbol with
  | none => .error .keyError
  | some pos =>
    let shares_count := pos.cnt
    let fee := fee_fn (ratAbs shares_count * price)
    let trx_value := ratAbs shares_count * price
    let trx_id := pos.trx_id
    match alookup s.trades trx_id with
    | none => .error .keyError
    | some trade =>
      let buy_trx_value_with_fee := trade.trx_value_with_fee
      match exit_type with
      | .long =>
        let sell_trx_value_with_fee := trx_value - fee
        let profit := sell_trx_value_with_fee - buy_trx_value_with_fee
        .ok { s with
          available_money := s.available_money + sell_trx_value_with_fee
          trades := aset s.trades trx_id { trade with
            sell_ds := some ds
            sell_value_no_fee := some trx_value
            sell_value_with_fee := some sell_trx_value_with_fee
            profit := some (round2 profit) }
          owned_shares := aremove s.owned_shares symbol }
      | .short =>
        let sell_trx_value_with_fee := trx_value + fee
        let profit := buy_trx_value_with_fee - sell_trx_value_with_fee
        match alookup s.money_from_short trx_id with
        | none => .error .keyError
        | some m =>
          .ok { s with
            available_money := s.available_money + m - sell_trx_value_with_fee
            money_from_short := aremove s.money_from_short trx_id
            trades := aset s.trades trx_id { trade with
              sell_ds := some ds
              sell_value_no_fee := some trx_value
              sell_value_with_fee := some sell_trx_value_with_fee
              profit := some (round2 profit) }
            owned_shares := aremove s.owned_shares symbol }

/-- `Backtester._buy`. -/
def buy (s : BState) (trx : Trx) (ds : Day) : Except BTError BState :=
  if (alookup s.owned_shares trx.symbol).isSome then
    .error (.duplicatePosition trx.symbol trx.entry_type)
  else
    let trx_id : TrxId := ⟨ds, trx.symbol, trx.entry_type⟩
    match trx.entry_type with
    | .long =>
      let trx_value_with_fee := trx.trx_value + trx.fee
      .ok { s with
        owned_shares := aset s.owned_shares trx.symbol ⟨trx.shares_count, trx_id⟩
        available_money := round2 (s.available_money - trx_value_with_fee)
        trades := aset s.trades trx_id
          ⟨ds, .long, trx.trx_value, trx_value_with_fee, none, none, none, none⟩ }
    | .short =>
      let trx_value_with_fee := trx.trx_value - trx.fee
      .ok { s with
        owned_shares := aset s.owned_shares trx.symbol ⟨-trx.shares_count, trx_id⟩
        available_money := round2 (s.available_money - trx.fee)
        money_from_short := aset s.money_from_short trx_id trx.trx_value
        trades := aset s.trades trx_id
          ⟨ds, .short, trx.trx_value, trx_value_with_fee, none, none, none, none⟩ }

/-- The per-symbol body of the sell loop of `Backtester.run` (membership
check, exit-signal checks, and the stop-loss branch). -/
def sellCheck (cfg : Config) (today : List Sym) (s : BState) (symbol : Sym)
    (ds : Day) : Except BTError BState :=
  if symbol ∈ today then
    match lookupRow cfg.signals symbol ds with
    | none => .error .keyError
    | some row =>
      if row.exit_long = 1 then
        sell cfg.sizer.calculate_fee s symbol row.price ds .long
      else if row.exit_short = 1 then
        sell cfg.sizer.calculate_fee s symbol row.price ds .short
      else if cfg.stop_loss then
        match alookup s.owned_shares symbol with
        | none => .error .keyError
        | some pos =>
          match alookup s.trades pos.trx_id with
          | none => .error .keyError
          | some trade =>
            if trade.ttype = .long ∧ row.price ≤ row.stop_loss then
              sell cfg.sizer.calculate_fee s symbol row.price ds .long
            else if trade.ttype = .short ∧ row.price ≥ row.stop_loss then
              sell cfg.sizer.calculate_fee s symbol row.price ds .short
            else .ok s
      else .ok s
  else .ok s

/-- The sell loop of `Backtester.run`: iterate over the snapshot of owned
symbols taken before the loop. -/
def sellPhase (cfg : Config) (s : BState) (ds : Day) : Except BTError BState :=
  foldE (fun st symbol => sellCheck cfg (symbolsInDay cfg ds) st symbol ds) s
    (s.owned_shares.map Prod.fst)

/-- The loop of `Backtester._calculate_account_value`, threading the
accumulator and the backup-price dict. -/
def calcAV (cfg : Config) (ds : Day) :
    List (Sym × PosEntry) → ℚ → List (Sym × (ℚ × Day)) →
    Except BTError (ℚ × List (Sym × (ℚ × Day)))
  | [], acc, backups => .ok (acc, backups)
  | (symbol, pos) :: rest, acc, backups =>
    match lookupRow cfg.signals symbol ds with
    | some row =>
      calcAV cfg ds rest (acc + pos.cnt * row.price) (aset backups symbol (row.price, ds))
    | none =>
      match alookup backups symbol with
      | none => .error .keyError
      | some pd =>
        calcAV cfg ds rest (acc + pos.cnt * pd.1) (aset backups symbol (pd.1, ds))

/-- `Backtester._calculate_account_value` (it mutates the backup-price dict). -/
def calcAccountValue (cfg : Config) (s : BState) (ds : Day) :
    Except BTError (ℚ × BState) :=
  match calcAV cfg ds s.owned_shares 0 s.backup_close_prices with
  | .error e => .error e
  | .ok (v, backups) => .ok (v, { s with backup_close_prices := backups })

/-- `Backtester._get_money_from_short`. -/
def shortSum (s : BState) : ℚ := (s.money_from_short.map Prod.snd).sum

/-- The candidate loop of `Backtester.run` (`entry_long` before `entry_short`,
at most one candidate per symbol per day). -/
def purchaseCandidates (cfg : Config) (ds : Day) : List Candidate :=
  (symbolsInDay cfg ds).filterMap fun symbol =>
    match lookupRow cfg.signals symbol ds with
    | none => none
    | some row =>
      if row.entry_long = 1 then some ⟨symbol, .long, row.price⟩
      else if row.entry_short = 1 then some ⟨symbol, .short, row.price⟩
      else none

/-- The sizer invocation of `Backtester.run`: available money, the candidate
list, and `capital_at_time` as computed on line 102. -/
def buysOf (cfg : Config) (s : BState) (cav : ℚ) (ds : Day) : List Trx :=
  cfg.sizer.decide_what_to_buy s.available_money (purchaseCandidates cfg ds)
    (s.available_money + cav + shortSum s)

/-- `Backtester._summarize_day`. -/
def summarizeDay (cfg : Config) (s : BState) (ds : Day) : Except BTError BState :=
  match calcAccountValue cfg s ds with
  | .error e => .error e
  | .ok (av, s1) =>
    let nav := av + s1.available_money + shortSum s1
    .ok { s1 with
      account_value := aset s1.account_value ds av
      net_account_value := aset s1.net_account_value ds nav
      rate_of_return := aset s1.rate_of_return ds
        ((nav - cfg.init_capital) / cfg.init_capital * 100) }

/-- One iteration of the day loop of `Backtester.run`: sell phase, bankruptcy
check, candidate selection and sizing, buy loop, day summary. -/
def processDay (cfg : Config) (s : BState) (ds : Day) : Except BTError BState :=
  match sellPhase cfg s ds with
  | .error e => .error e
  | .ok s1 =>
    if s1.available_money < 0 then .error (.bankrupt s1.available_money)
    else
      match calcAccountValue cfg s1 ds with
      | .error e => .error e
      | .ok (cav, s2) =>
        match foldE (fun st trx => buy st trx ds) s2 (buysOf cfg s2 cav ds) with
        | .error e => .error e
        | .ok s3 => summarizeDay cfg s3 ds

/-- The output assembled by `Backtester._run_output`: the three date-indexed
series. -/
structure RunOutput where
  account_value : List (Day × ℚ)
  net_account_value : List (Day × ℚ)
  rate_of_return : List (Day × ℚ)
deriving DecidableEq

/-- `Backtester.run`: reset the mutable state, iterate the day loop over the
computed day sequence, and return the output table and the trade ledger. -/
def Backtester.run (b : Backtester) (test_days : Option Nat) :
    Except BTError (RunOutput × List (TrxId × Trade)) :=
  match foldE (processDay b.cfg) (resetState b.cfg) (runDays b.cfg test_days) with
  | .error e => .error e
  | .ok s => .ok (⟨s.account_value, s.net_account_value, s.rate_of_return⟩, s.trades)

/-- The exit decision in the words of the specification: first match wins;
an exit_long signal of 1 exits long; otherwise an exit_short signal of 1
exits short; otherwise, only if stop-loss enforcement is enabled, the
position is exited long when the open trade is long and today's price is at
most the stop-loss price, or short when the open trade is short and today's
price is at least the stop-loss price; otherwise no exit. -/
def exitDecisionSpec (stop_loss_enabled : Bool) (tt : TType) (row : Row) : Option TType :=
  if row.exit_long = 1 then some .long
  else if row.exit_short = 1 then some .short
  else if stop_loss_enabled = true ∧ tt = .long ∧ row.price ≤ row.stop_loss then some .long
  else if stop_loss_enabled = true ∧ tt = .short ∧ row.price ≥ row.stop_loss then some .short
  else none

/-- The price used for a held symbol when valuing the account on day `ds`:
today's price when present, else the recorded last known backup price. -/
def effPrice (cfg : Config) (backups : List (Sym × (ℚ × Day))) (sym : Sym)
    (ds : Day) : Option ℚ :=
  match lookupRow cfg.signals sym ds with
  | some row => some row.price
  | none => Option.map Prod.fst (alookup backups sym)

/-- Every open short trade has its short-proceeds entry (the direction of the
short-proceeds iff invariant that the code maintains). -/
def shortEntryInv (s : BState) : Prop :=
  ∀ id tr, alookup s.trades id = some tr → tr.ttype = .short → tr.sell_ds = none →
    (alookup s.money_from_short id).isSome = true

/-- The payload of a successful result, with a default for the error case. -/
def okOr {ε α : Type} (x : Except ε α) (d : α) : α :=
  match x with
  | .ok a => a
  | .error _ => d

/-! Concrete inputs used to witness the theorems below. -/

/-- A row with all columns zero. -/
def zeroRow : Row := ⟨0, 0, 0, 0, 0, 0⟩

/-- A sizer that buys one share of every candidate with zero decision fee,
and charges a ruinous sell fee. -/
def exSizerC1 : Sizer :=
  { decide_what_to_buy := fun _ cands _ =>
      cands.map (fun c => ⟨c.symbol, c.entry_type, c.price, 1, c.price, 0⟩)
    calculate_fee := fun _ => 100000 }

/-- One symbol, bought long on day 1 and exited on day 2, where the sell fee
bankrupts the account. -/
def exCfgC1 : Config :=
  { signals := [("A", [(1, { zeroRow with price := 10, entry_long := 1 }),
                       (2, { zeroRow with price := 10, exit_long := 1 })])]
    init_capital := 10000
    sizer := exSizerC1
    stop_loss := false }

/-- The engine state after day 1 of the `exCfgC1` run. -/
def exC1Day1 : BState :=
  match processDay exCfgC1 (resetState exCfgC1) 1 with
  | .ok s => s
  | .error _ => resetState exCfgC1

/-- The engine state after the sell phase of day 2 of the `exCfgC1` run. -/
def exC1Sell2 : BState :=
  match sellPhase exCfgC1 exC1Day1 2 with
  | .ok s => s
  | .error _ => exC1Day1

/-- A transaction id used in hand-built states. -/
def exIdA : TrxId := ⟨1, "A", .long⟩

/-- An open trade record used in hand-built states. -/
def exTrA : Trade := ⟨1, .long, 10, 11, none, none, none, none⟩

/-- A hand-built state holding one position of symbol A, its open trade, and
a short-proceeds entry under the same id. -/
def exStateC3 : BState :=
  { owned_shares := [("A", ⟨1, exIdA⟩)]
    available_money := 10000
    money_from_short := [(exIdA, 10)]
    trades := [(exIdA, exTrA)]
    account_value := []
    net_account_value := []
    rate_of_return := []
    backup_close_prices := [] }

/-- Result of selling A long at price 20 with unit fee from `exStateC3`. -/
def exSellLong : BState := okOr (sell (fun _ => 1) exStateC3 "A" 20 5 .long) exStateC3

/-- Result of selling A short at price 20 with unit fee from `exStateC3`. -/
def exSellShort : BState := okOr (sell (fun _ => 1) exStateC3 "A" 20 5 .short) exStateC3

/-- Result of buying 3 shares of A long (value 30, fee 2) from a fresh state. -/
def exBuyLongS : BState :=
  okOr (buy (resetState exCfgC1) ⟨"A", .long, 10, 3, 30, 2⟩ 7) (resetState exCfgC1)

/-- Result of buying 3 shares of A short (value 30, fee 2) from a fresh state. -/
def exBuyShortS : BState :=
  okOr (buy (resetState exCfgC1) ⟨"A", .short, 10, 3, 30, 2⟩ 7) (resetState exCfgC1)

/-- A sizer returning the same buy decision twice, so the second one targets
an already-held symbol. -/
def exSizerC6 : Sizer :=
  { decide_what_to_buy := fun _ cands _ =>
      cands.map (fun c => ⟨c.symbol, c.entry_type, c.price, 1, c.price, 0⟩)
        ++ cands.map (fun c => ⟨c.symbol, c.entry_type, c.price, 1, c.price, 0⟩)
    calculate_fee := fun _ => 0 }

/-- One symbol entered long on day 1 under the duplicate-returning sizer. -/
def exCfgC6 : Config :=
  { signals := [("A", [(1, { zeroRow with price := 10, entry_long := 1 })])]
    init_capital := 10000
    sizer := exSizerC6
    stop_loss := false }

/-- The buy decision the `exCfgC6` sizer returns twice. -/
def exC6T : Trx := ⟨"A", .long, 10, 1, 10, 0⟩

/-- The state after the first (successful) buy of the `exCfgC6` run. -/
def exC6S : BState := okOr (buy (resetState exCfgC6) exC6T 1) (resetState exCfgC6)

/-- A sizer that never buys. -/
def exSizerNone : Sizer :=
  { decide_what_to_buy := fun _ _ _ => []
    calculate_fee := fun _ => 1 }

/-- Stop-loss enabled, one symbol whose day-1 price 90 is below the stop-loss
price 95, with no exit signals set. -/
def exCfgC2 : Config :=
  { signals := [("A", [(1, { zeroRow with price := 90, stop_loss := 95 })])]
    init_capital := 10000
    sizer := exSizerNone
    stop_loss := true }

/-- A one-symbol one-day panel used for the day-sequence claims. -/
def exCfgC7 : Config :=
  { signals := [("A", [(1, zeroRow)])]
    init_capital := 10000
    sizer := exSizerNone
    stop_loss := false }

/-- A panel whose only symbol has data on day 1 only. -/
def exCfgC8 : Config :=
  { signals := [("A", [(1, { zeroRow with price := 10 })])]
    init_capital := 10000
    sizer := exSizerNone
    stop_loss := false }

/-- A state holding 2 shares of A with a recorded backup price (7, day 1),
used on a day where A has no data. -/
def exStateC8 : BState :=
  { owned_shares := [("A", ⟨2, exIdA⟩)]
    available_money := 0
    money_from_short := []
    trades := [(exIdA, exTrA)]
    account_value := []
    net_account_value := []
    rate_of_return := []
    backup_close_prices := [("A", (7, 1))] }

/-- A sizer whose buy decisions carry a fee larger than the whole capital. -/
def exSizerC10 : Sizer :=
  { decide_what_to_buy := fun _ cands _ =>
      cands.map (fun c => ⟨c.symbol, c.entry_type, c.price, 1, c.price, 20000⟩)
    calculate_fee := fun _ => 0 }

/-- Day 1 buys A long with a ruinous fee; day 2 has no signals, so the
bankruptcy is detected only at the day-2 post-exit checkpoint. -/
def exCfgC10 : Config :=
  { signals := [("A", [(1, { zeroRow with price := 10, entry_long := 1 }),
                       (2, { zeroRow with price := 10 })])]
    init_capital := 10000
    sizer := exSizerC10
    stop_loss := false }

/-- The state passed to the buy loop on day 1 of the `exCfgC10` run. -/
def exC10S2 : BState := resetState exCfgC10

/-- The state after the day-1 buy loop of the `exCfgC10` run (negative cash). -/
def exC10S3 : BState :=
  okOr (foldE (fun st tx => buy st tx 1) exC10S2 (buysOf exCfgC10 exC10S2 0 1)) exC10S2

/-- The state after the day-1 summary of the `exCfgC10` run. -/
def exC10S4 : BState := okOr (summarizeDay exCfgC10 exC10S3 1) exC10S3

/-- A sizer buying one share of each candidate with fee 1. -/
def exSizerC5 : Sizer :=
  { decide_what_to_buy := fun _ cands _ =>
      cands.map (fun c => ⟨c.symbol, c.entry_type, c.price, 1, c.price, 1⟩)
    calculate_fee := fun _ => 1 }

/-- A short is entered on day 1 and the position is then closed on day 2
through the exit_long branch (the exit_long signal fires while the held
position is short); day 3 has no signals. -/
def exCfgC5 : Config :=
  { signals := [("A", [(1, { zeroRow with price := 10, entry_short := 1 }),
                       (2, { zeroRow with price := 10, exit_long := 1 }),
                       (3, { zeroRow with price := 10 })])]
    init_capital := 10000
    sizer := exSizerC5
    stop_loss := false }

/-- The id of the day-1 short trade of the `exCfgC5` run. -/
def exC5Id : TrxId := ⟨1, "A", .short⟩

/-- The `exCfgC5` run state after day 1 (open short held). -/
def exC5Day1 : BState :=
  okOr (foldE (processDay exCfgC5) (resetState exCfgC5) [1]) (resetState exCfgC5)

/-- The `exCfgC5` run state between the day-2 and day-3 steps. -/
def exC5Mid : BState :=
  okOr (foldE (processDay exCfgC5) (resetState exCfgC5) [1, 2]) (resetState exCfgC5)

section AssocLemmas

variable {α β : Type} [DecidableEq α]

theorem alookup_aset_self (l : List (α × β)) (k : α) (v : β) :
    alookup (aset l k v) k = some v := by
  induction l with
  | nil => simp [aset, alookup]
  | cons p t ih =>
    by_cases h : p.1 = k
    · simp [aset, alookup, h]
    · simp [aset, alookup, h, ih]

theorem alookup_aset_ne (l : List (α × β)) (k k' : α) (v : β) (h : k' ≠ k) :
    alookup (aset l k v) k' = alookup l k' := by
  have hk : ¬ k = k' := fun hh => h hh.symm
  induction l with
  | nil => simp [aset, alookup, hk]
  | cons p t ih =>
    by_cases hp : p.1 = k
    · have hp' : ¬ p.1 = k' := by rw [hp]; exact hk
      simp [aset, alookup, hp, hp', hk]
    · by_cases hp' : p.1 = k'
      · simp [aset, alookup, hp, hp', hk, h]
      · simp [aset, alookup, hp, hp', hk, ih]

theorem alookup_aremove_self (l : List (α × β)) (k : α) :
    alookup (aremove l k) k = none := by
  induction l with
  | nil => simp [aremove, alookup]
  | cons p t ih =>
    by_cases h : p.1 = k
    · simpa [aremove, List.filter, h] using ih
    · simpa [aremove, List.filter, h, alookup] using ih

theorem alookup_aremove_ne (l : List (α × β)) (k k' : α) (h : k' ≠ k) :
    alookup (aremove l k) k' = alookup l k' := by
  have hk : ¬ k = k' := fun hh => h hh.symm
  induction l with
  | nil => simp [aremove, alookup]
  | cons p t ih =>
    by_cases hp : p.1 = k
    · have hp' : ¬ p.1 = k' := by rw [hp]; exact hk
      simpa [aremove, List.filter, hp, alookup, hp', hk] using ih
    · by_cases hp' : p.1 = k'
      · simp [aremove, List.filter, hp, alookup, hp', hk, h, ih]
      · simpa [aremove, List.filter, hp, alookup, hp', hk] using ih

end AssocLemmas

section FoldELemmas

variable {σ α ε : Type} {f : σ → α → Except ε σ}

theorem foldE_nil (s : σ) : foldE f s [] = .ok s := rfl

theorem foldE_cons (s : σ) (a : α) (t : List α) :
    foldE f s (a :: t) =
      match f s a with
      | .ok s' => foldE f s' t
      | .error e => .error e := rfl

theorem foldE_append (s : σ) (l₁ l₂ : List α) :
    foldE f s (l₁ ++ l₂) =
      match foldE f s l₁ with
      | .ok s' => foldE f s' l₂
      | .error e => .error e := by
  induction l₁ generalizing s with
  | nil => simp [foldE]
  | cons a t ih =>
    simp only [List.cons_append, foldE_cons]
    cases f s a with
    | ok s' => simpa using ih s'
    | error e => rfl

theorem foldE_error_iff (s : σ) (l : List α) (e : ε) :
    foldE f s l = .error e ↔
      ∃ pre x post s', l = pre ++ x :: post ∧ foldE f s pre = .ok s' ∧
        f s' x = .error e := by
  induction l generalizing s with
  | nil =>
    constructor
    · intro h
      simp [foldE] at h
    · rintro ⟨pre, x, post, s', hl, -, -⟩
      exact absurd hl (by simp)
  | cons a t ih =>
    constructor
    · intro h
      rw [foldE_cons] at h
      cases hfa : f s a with
      | ok s1 =>
        rw [hfa] at h
        obtain ⟨pre, x, post, s', hl, hpre, hx⟩ := (ih s1).mp h
        exact ⟨a :: pre, x, post, s', by simp [hl], by simp [foldE_cons, hfa, hpre], hx⟩
      | error e' =>
        rw [hfa] at h
        cases h
        exact ⟨[], a, t, s, rfl, rfl, hfa⟩
    · rintro ⟨pre, x, post, s', hl, hpre, hx⟩
      cases pre with
      | nil =>
        cases hl
        simp only [foldE_nil, Except.ok.injEq] at hpre
        subst hpre
        simp [foldE_cons, hx]
      | cons b pt =>
        simp only [List.cons_append, List.cons.injEq] at hl
        obtain ⟨hb, hl⟩ := hl
        subst hb
        rw [foldE_cons] at hpre ⊢
        cases hfa : f s a with
        | ok s1 =>
          rw [hfa] at hpre
          exact (ih s1).mpr ⟨pt, x, post, s', hl, hpre, hx⟩
        | error e' =>
          rw [hfa] at hpre
          cases hpre

theorem foldE_pres {P : σ → Prop}
    (hf : ∀ s a s', P s → f s a = .ok s' → P s') :
    ∀ (l : List α) (s s' : σ), P s → foldE f s l = .ok s' → P s' := by
  intro l
  induction l with
  | nil =>
    intro s s' hp h
    simp only [foldE_nil, Except.ok.injEq] at h
    exact h ▸ hp
  | cons a t ih =>
    intro s s' hp h
    rw [foldE_cons] at h
    cases hfa : f s a with
    | ok s1 =>
      rw [hfa] at h
      exact ih s1 s' (hf s a s1 hp hfa) h
    | error e =>
      rw [hfa] at h
      cases h

theorem foldE_error_class {P : ε → Prop}
    (hf : ∀ s a e, f s a = .error e → P e) :
    ∀ (l : List α) (s : σ) (e : ε), foldE f s l = .error e → P e := by
  intro l
  induction l with
  | nil =>
    intro s e h
    simp [foldE] at h
  | cons a t ih =>
    intro s e h
    rw [foldE_cons] at h
    cases hfa : f s a with
    | ok s1 =>
      rw [hfa] at h
      exact ih s1 e h
    | error e' =>
      rw [hfa] at h
      cases h
      exact hf s a e hfa

end FoldELemmas

section ErrorClassification

theorem sell_error_eq {fee_fn : ℚ → ℚ} {s : BState} {symbol : Sym} {price : ℚ}
    {ds : Day} {exit_type : TType} {e : BTError}
    (h : sell fee_fn s symbol price ds exit_type = .error e) : e = .keyError := by
  cases hpos : alookup s.owned_shares symbol with
  | none =>
    simp only [sell, hpos, Except.error.injEq] at h
    exact h.symm
  | some pos =>
    cases htr : alookup s.trades pos.trx_id with
    | none =>
      simp only [sell, hpos, htr, Except.error.injEq] at h
      exact h.symm
    | some trade =>
      cases exit_type with
      | long =>
        simp only [sell, hpos, htr] at h
        exact Except.noConfusion h
      | short =>
        cases hms : alookup s.money_from_short pos.trx_id with
        | none =>
          simp only [sell, hpos, htr, hms, Except.error.injEq] at h
          exact h.symm
        | some m =>
          simp only [sell, hpos, htr, hms] at h
          exact Except.noConfusion h

theorem sellCheck_error_eq {cfg : Config} {today : List Sym} {s : BState}
    {symbol : Sym} {ds : Day} {e : BTError}
    (h : sellCheck cfg today s symbol ds = .error e) : e = .keyError := by
  unfold sellCheck at h
  by_cases hmem : symbol ∈ today
  · rw [if_pos hmem] at h
    cases hrow : lookupRow cfg.signals symbol ds with
    | none =>
      simp only [hrow, Except.error.injEq] at h
      exact h.symm
    | some row =>
      simp only [hrow] at h
      by_cases hl : row.exit_long = 1
      · rw [if_pos hl] at h
        exact sell_error_eq h
      · rw [if_neg hl] at h
        by_cases hs : row.exit_short = 1
        · rw [if_pos hs] at h
          exact sell_error_eq h
        · rw [if_neg hs] at h
          cases hsl : cfg.stop_loss with
          | false =>
            simp only [hsl, Bool.false_eq_true, if_false] at h
            exact Except.noConfusion h
          | true =>
            simp only [hsl, if_true] at h
            cases hpos : alookup s.owned_shares symbol with
            | none =>
              simp only [hpos, Except.error.injEq] at h
              exact h.symm
            | some pos =>
              simp only [hpos] at h
              cases htr : alookup s.trades pos.trx_id with
              | none =>
                simp only [htr, Except.error.injEq] at h
                exact h.symm
              | some trade =>
                simp only [htr] at h
                by_cases h1 : trade.ttype = TType.long ∧ row.price ≤ row.stop_loss
                · rw [if_pos h1] at h
                  exact sell_error_eq h
                · rw [if_neg h1] at h
                  by_cases h2 : trade.ttype = TType.short ∧ row.price ≥ row.stop_loss
                  · rw [if_pos h2] at h
                    exact sell_error_eq h
                  · rw [if_neg h2] at h
                    exact Except.noConfusion h
  · rw [if_neg hmem] at h
    exact Except.noConfusion h

theorem sellPhase_error_eq {cfg : Config} {s : BState} {ds : Day} {e : BTError}
    (h : sellPhase cfg s ds = .error e) : e = .keyError :=
  foldE_error_class (P := (· = BTError.keyError))
    (fun _ _ _ hh => sellCheck_error_eq hh) _ _ _ h

theorem calcAV_error_eq {cfg : Config} {ds : Day} :
    ∀ {l : List (Sym × PosEntry)} {acc : ℚ} {backups : List (Sym × (ℚ × Day))}
      {e : BTError}, calcAV cfg ds l acc backups = .error e → e = .keyError := by
  intro l
  induction l with
  | nil =>
    intro acc backups e h
    simp [calcAV] at h
  | cons p rest ih =>
    intro acc backups e h
    obtain ⟨symbol, pos⟩ := p
    cases hrow : lookupRow cfg.signals symbol ds with
    | some row =>
      simp only [calcAV, hrow] at h
      exact ih h
    | none =>
      cases hb : alookup backups symbol with
      | none =>
        simp only [calcAV, hrow, hb, Except.error.injEq] at h
        exact h.symm
      | some pd =>
        simp only [calcAV, hrow, hb] at h
        exact ih h

theorem calcAccountValue_error_eq {cfg : Config} {s : BState} {ds : Day}
    {e : BTError} (h : calcAccountValue cfg s ds = .error e) : e = .keyError := by
  unfold calcAccountValue at h
  cases hcv : calcAV cfg ds s.owned_shares 0 s.backup_close_prices with
  | error e2 =>
    simp only [hcv, Except.error.injEq] at h
    exact h ▸ calcAV_error_eq hcv
  | ok p =>
    obtain ⟨v, backups⟩ := p
    simp only [hcv] at h
    exact Except.noConfusion h

theorem buy_error_eq {s : BState} {trx : Trx} {ds : Day} {e : BTError}
    (h : buy s trx ds = .error e) :
    e = .duplicatePosition trx.symbol trx.entry_type := by
  unfold buy at h
  by_cases hdup : (alookup s.owned_shares trx.symbol).isSome
  · rw [if_pos hdup] at h
    injection h with hh
    exact hh.symm
  · rw [if_neg hdup] at h
    cases htt : trx.entry_type with
    | long =>
      simp only [htt] at h
      exact Except.noConfusion h
    | short =>
      simp only [htt] at h
      exact Except.noConfusion h

theorem summarizeDay_error_eq {cfg : Config} {s : BState} {ds : Day}
    {e : BTError} (h : summarizeDay cfg s ds = .error e) : e = .keyError := by
  unfold summarizeDay at h
  cases hcv : calcAccountValue cfg s ds with
  | error e2 =>
    simp only [hcv, Except.error.injEq] at h
    exact h ▸ calcAccountValue_error_eq hcv
  | ok p =>
    obtain ⟨av, s1⟩ := p
    simp only [hcv] at h
    exact Except.noConfusion h

/-- The day step raises the bankruptcy error exactly when the sell phase
succeeds and leaves the available money negative. -/
theorem processDay_bankrupt_iff {cfg : Config} {s : BState} {ds : Day} {q : ℚ} :
    processDay cfg s ds = .error (.bankrupt q) ↔
      ∃ s', sellPhase cfg s ds = .ok s' ∧ s'.available_money < 0 ∧
        q = s'.available_money := by
  constructor
  · intro h
    unfold processDay at h
    cases hsp : sellPhase cfg s ds with
    | error e =>
      simp only [hsp] at h
      injection h with hh
      rw [sellPhase_error_eq hsp] at hh
      exact absurd hh (by simp)
    | ok s1 =>
      simp only [hsp] at h
      by_cases hneg : s1.available_money < 0
      · rw [if_pos hneg] at h
        injection h with hh
        injection hh with hq
        exact ⟨s1, rfl, hneg, hq.symm⟩
      · rw [if_neg hneg] at h
        cases hcv : calcAccountValue cfg s1 ds with
        | error e2 =>
          simp only [hcv] at h
          injection h with hh
          rw [calcAccountValue_error_eq hcv] at hh
          exact absurd hh (by simp)
        | ok p =>
          obtain ⟨cav, s2⟩ := p
          simp only [hcv] at h
          cases hbf : foldE (fun st trx => buy st trx ds) s2 (buysOf cfg s2 cav ds) with
          | error e3 =>
            simp only [hbf] at h
            injection h with hh
            have hdup := foldE_error_class
              (P := fun e' => ∃ sy tt, e' = BTError.duplicatePosition sy tt)
              (fun _ trx _ hb => ⟨trx.symbol, trx.entry_type, buy_error_eq hb⟩)
              _ _ _ hbf
            obtain ⟨sy, tt, hdup⟩ := hdup
            rw [hdup] at hh
            exact absurd hh (by simp)
          | ok s3 =>
            simp only [hbf] at h
            exact absurd (summarizeDay_error_eq h) (by simp)
  · rintro ⟨s', hsp, hneg, hq⟩
    unfold processDay
    simp only [hsp, if_pos hneg, hq]

/-- If some prefix of the day sequence runs fine and the next day errors,
the whole run returns that error. -/
theorem run_error_of_day {cfg : Config} {m : BState} {t : Option Nat}
    {pre post : List Day} {ds : Day} {s : BState} {e : BTError}
    (hdays : runDays cfg t = pre ++ ds :: post)
    (hpre : foldE (processDay cfg) (resetState cfg) pre = .ok s)
    (hday : processDay cfg s ds = .error e) :
    Backtester.run ⟨cfg, m⟩ t = .error e := by
  have hfold : foldE (processDay cfg) (resetState cfg) (runDays cfg t) = .error e := by
    rw [hdays, foldE_append, hpre]
    simp [foldE_cons, hday]
  simp only [Backtester.run, hfold]

end ErrorClassification

/-- Claim C1: if the cash balance is negative after the exit phase of a day,
`run` raises the fatal bankruptcy error at once: the day step returns the
bankruptcy error (so the entry phase and the daily snapshot of that day do
not happen) and the whole run aborts with it, producing no output for that
day or any later day. -/
theorem bankruptcy_aborts_run {cfg : Config} (m : BState) {t : Option Nat}
    {pre post : List Day} {ds : Day} {s s' : BState}
    (hdays : runDays cfg t = pre ++ ds :: post)
    (hpre : foldE (processDay cfg) (resetState cfg) pre = .ok s)
    (hsell : sellPhase cfg s ds = .ok s')
    (hneg : s'.available_money < 0) :
    processDay cfg s ds = .error (.bankrupt s'.available_money) ∧
    Backtester.run ⟨cfg, m⟩ t = .error (.bankrupt s'.available_money) := by
  have hday : processDay cfg s ds = .error (.bankrupt s'.available_money) :=
    processDay_bankrupt_iff.mpr ⟨s', hsell, hneg, rfl⟩
  exact ⟨hday, run_error_of_day hdays hpre hday⟩

/-- Witness for the C1 theorem: the `exCfgC1` run is bankrupted by the sell
fee on day 2, aborting the run with the post-sell negative balance. -/
theorem bankruptcy_aborts_run_witness :
    processDay exCfgC1 exC1Day1 2 = .error (.bankrupt exC1Sell2.available_money) ∧
    Backtester.run ⟨exCfgC1, resetState exCfgC1⟩ none
      = .error (.bankrupt exC1Sell2.available_money) :=
  @bankruptcy_aborts_run exCfgC1 (resetState exCfgC1) none [1] [] 2
    exC1Day1 exC1Sell2 (by decide) (by decide)
    (by decide) (by decide)

/-- Claim C3: for every executed sell, with trx_value the absolute share count
times today's price and fee from the sizer's fee function, a long exit adds
trx_value minus fee to cash and records profit equal to that net amount minus
the entry value with fee; a short exit adds the trade's short-proceeds entry
to cash, removes that entry, subtracts trx_value plus fee, and records profit
equal to the entry value with fee minus that gross cost; recorded profits are
rounded to 2 decimal places. -/
theorem sell_accounting {fee_fn : ℚ → ℚ} {s : BState} {symbol : Sym}
    {pos : PosEntry} {trade : Trade} (price : ℚ) (ds : Day)
    (hpos : alookup s.owned_shares symbol = some pos)
    (htr : alookup s.trades pos.trx_id = some trade) :
    (∀ s', sell fee_fn s symbol price ds .long = .ok s' →
      s'.available_money
          = s.available_money + (ratAbs pos.cnt * price - fee_fn (ratAbs pos.cnt * price)) ∧
      Option.map Trade.profit (alookup s'.trades pos.trx_id)
          = some (some (round2 (ratAbs pos.cnt * price - fee_fn (ratAbs pos.cnt * price)
              - trade.trx_value_with_fee)))) ∧
    (∀ m s', alookup s.money_from_short pos.trx_id = some m →
      sell fee_fn s symbol price ds .short = .ok s' →
      s'.available_money
          = s.available_money + m - (ratAbs pos.cnt * price + fee_fn (ratAbs pos.cnt * price)) ∧
      alookup s'.money_from_short pos.trx_id = none ∧
      Option.map Trade.profit (alookup s'.trades pos.trx_id)
          = some (some (round2 (trade.trx_value_with_fee
              - (ratAbs pos.cnt * price + fee_fn (ratAbs pos.cnt * price)))))) := by
  constructor
  · intro s' hok
    simp only [sell, hpos, htr] at hok
    injection hok with hs'
    subst hs'
    refine ⟨rfl, ?_⟩
    rw [alookup_aset_self]
    rfl
  · intro m s' hm hok
    simp only [sell, hpos, htr, hm] at hok
    injection hok with hs'
    subst hs'
    refine ⟨rfl, alookup_aremove_self _ _, ?_⟩
    rw [alookup_aset_self]
    rfl

/-- Witness for the C3 theorem at `exStateC3`: the long exit at price 20 with
unit fee yields cash 10019 and profit 8; the short exit yields cash 9989,
removes the short-proceeds entry, and records profit -10. -/
theorem sell_accounting_witness :
    (exSellLong.available_money = 10019 ∧
      Option.map Trade.profit (alookup exSellLong.trades exIdA) = some (some 8)) ∧
    (exSellShort.available_money = 9989 ∧
      alookup exSellShort.money_from_short exIdA = none ∧
      Option.map Trade.profit (alookup exSellShort.trades exIdA)
          = some (some (-10))) := by
  have h := @sell_accounting (fun _ => 1) exStateC3 "A" ⟨1, exIdA⟩ exTrA 20 5
    (by decide) (by decide)
  have hl := h.1 exSellLong (by decide)
  have hs := h.2 10 exSellShort (by decide) (by decide)
  exact ⟨⟨hl.1.trans (by decide),
          hl.2.trans (by decide)⟩,
         ⟨hs.1.trans (by decide), hs.2.1,
          hs.2.2.trans (by decide)⟩⟩

/-- Claim C4: an executed long entry subtracts gross trade value plus fee from
cash and sets the position's count to the positive share count; an executed
short entry subtracts only the fee, sets the count to the negated share
count, and records a short-proceeds entry equal to the gross trade value;
the cash balance is rounded to 2 decimal places after each buy. -/
theorem buy_accounting {s : BState} {trx : Trx} (ds : Day)
    (hfree : alookup s.owned_shares trx.symbol = none) :
    (∀ s', trx.entry_type = .long → buy s trx ds = .ok s' →
      s'.available_money = round2 (s.available_money - (trx.trx_value + trx.fee)) ∧
      alookup s'.owned_shares trx.symbol
          = some ⟨trx.shares_count, ⟨ds, trx.symbol, .long⟩⟩) ∧
    (∀ s', trx.entry_type = .short → buy s trx ds = .ok s' →
      s'.available_money = round2 (s.available_money - trx.fee) ∧
      alookup s'.owned_shares trx.symbol
          = some ⟨-trx.shares_count, ⟨ds, trx.symbol, .short⟩⟩ ∧
      alookup s'.money_from_short ⟨ds, trx.symbol, .short⟩ = some trx.trx_value) := by
  constructor
  · intro s' htt hok
    unfold buy at hok
    rw [if_neg (by simp [hfree])] at hok
    simp only [htt] at hok
    injection hok with hs'
    subst hs'
    exact ⟨rfl, by rw [alookup_aset_self]⟩
  · intro s' htt hok
    unfold buy at hok
    rw [if_neg (by simp [hfree])] at hok
    simp only [htt] at hok
    injection hok with hs'
    subst hs'
    exact ⟨rfl, by rw [alookup_aset_self], by rw [alookup_aset_self]⟩

/-- Witness for the C4 theorem: buying 3 shares at value 30 with fee 2 from a
fresh 10000 state gives cash 9968 (long) and 9998 (short), the signed counts,
and for the short a proceeds entry of 30. -/
theorem buy_accounting_witness :
    (exBuyLongS.available_money = 9968 ∧
      alookup exBuyLongS.owned_shares "A" = some ⟨3, ⟨7, "A", .long⟩⟩) ∧
    (exBuyShortS.available_money = 9998 ∧
      alookup exBuyShortS.owned_shares "A" = some ⟨-3, ⟨7, "A", .short⟩⟩ ∧
      alookup exBuyShortS.money_from_short ⟨7, "A", .short⟩ = some 30) := by
  have hL := (@buy_accounting (resetState exCfgC1) ⟨"A", .long, 10, 3, 30, 2⟩ 7
    (by decide)).1 exBuyLongS rfl (by decide)
  have hS := (@buy_accounting (resetState exCfgC1) ⟨"A", .short, 10, 3, 30, 2⟩ 7
    (by decide)).2 exBuyShortS rfl (by decide)
  exact ⟨⟨hL.1.trans (by decide), hL.2⟩,
         ⟨hS.1.trans (by decide), hS.2.1, hS.2.2⟩⟩

/-- Claim C6: a buy decision whose symbol already has an open position raises
the fatal duplicate-position error; the error aborts the remaining buy loop
and the whole run at once (the failed buy contributes no state change, as the
run's result is just the error). -/
theorem duplicate_buy_aborts_run {cfg : Config} (m : BState) {t : Option Nat}
    {pre post : List Day} {ds : Day} {s0 s1 s2 s : BState} {cav : ℚ}
    {bpre brest : List Trx} {trx : Trx}
    (hdays : runDays cfg t = pre ++ ds :: post)
    (hpre : foldE (processDay cfg) (resetState cfg) pre = .ok s0)
    (hsell : sellPhase cfg s0 ds = .ok s1)
    (hnn : ¬ s1.available_money < 0)
    (hcalc : calcAccountValue cfg s1 ds = .ok (cav, s2))
    (hbuys : buysOf cfg s2 cav ds = bpre ++ trx :: brest)
    (hbpre : foldE (fun st tx => buy st tx ds) s2 bpre = .ok s)
    (hdup : (alookup s.owned_shares trx.symbol).isSome = true) :
    buy s trx ds = .error (.duplicatePosition trx.symbol trx.entry_type) ∧
    Backtester.run ⟨cfg, m⟩ t
        = .error (.duplicatePosition trx.symbol trx.entry_type) := by
  have hbuy : buy s trx ds = .error (.duplicatePosition trx.symbol trx.entry_type) := by
    unfold buy
    rw [if_pos hdup]
  have hfold : foldE (fun st tx => buy st tx ds) s2 (buysOf cfg s2 cav ds)
      = .error (.duplicatePosition trx.symbol trx.entry_type) := by
    rw [hbuys, foldE_append, hbpre]
    simp [foldE_cons, hbuy]
  have hday : processDay cfg s0 ds
      = .error (.duplicatePosition trx.symbol trx.entry_type) := by
    unfold processDay
    simp only [hsell, if_neg hnn, hcalc, hfold]
  exact ⟨hbuy, run_error_of_day hdays hpre hday⟩

/-- Witness for the C6 theorem: under the duplicate-returning sizer of
`exCfgC6`, the second buy of A on day 1 raises the duplicate-position error
and the run aborts with it. -/
theorem duplicate_buy_aborts_run_witness :
    buy exC6S exC6T 1 = .error (.duplicatePosition "A" .long) ∧
    Backtester.run ⟨exCfgC6, resetState exCfgC6⟩ none
        = .error (.duplicatePosition "A" .long) :=
  @duplicate_buy_aborts_run exCfgC6 (resetState exCfgC6) none [] [] 1
    (resetState exCfgC6) (resetState exCfgC6) (resetState exCfgC6) exC6S 0
    [exC6T] [] exC6T
    (by decide) (by decide)
    (by decide) (by decide)
    (by decide) (by decide)
    (by decide) (by decide)

/-- Claim C2: for a held symbol with data today, the sell-loop body decides
the exit in strict priority order, exit_long signal first, then exit_short,
then (only when stop-loss enforcement is enabled) the stop-loss comparison
directed by the open trade's type; no match leaves the position held, and a
held symbol absent from today's data is skipped with no exit decision. -/
theorem exit_priority {cfg : Config} {s : BState} {ds : Day} {symbol : Sym}
    {pos : PosEntry} {trade : Trade}
    (hpos : alookup s.owned_shares symbol = some pos)
    (htr : alookup s.trades pos.trx_id = some trade) :
    (symbol ∉ symbolsInDay cfg ds →
      sellCheck cfg (symbolsInDay cfg ds) s symbol ds = .ok s) ∧
    (∀ row, symbol ∈ symbolsInDay cfg ds →
      lookupRow cfg.signals symbol ds = some row →
      sellCheck cfg (symbolsInDay cfg ds) s symbol ds =
        match exitDecisionSpec cfg.stop_loss trade.ttype row with
        | some et => sell cfg.sizer.calculate_fee s symbol row.price ds et
        | none => .ok s) := by
  constructor
  · intro hmem
    unfold sellCheck
    rw [if_neg hmem]
  · intro row hmem hrow
    unfold sellCheck exitDecisionSpec
    rw [if_pos hmem]
    simp only [hrow]
    by_cases hl : row.exit_long = 1
    · simp only [if_pos hl]
    · simp only [if_neg hl]
      by_cases hs : row.exit_short = 1
      · simp only [if_pos hs]
      · simp only [if_neg hs]
        cases hsl : cfg.stop_loss with
        | false => simp
        | true =>
          by_cases h1 : trade.ttype = TType.long ∧ row.price ≤ row.stop_loss
          · simp [hpos, htr, h1]
          · by_cases h2 : trade.ttype = TType.short ∧ row.price ≥ row.stop_loss
            · simp [hpos, htr, h1, h2]
            · simp [hpos, htr, h1, h2]

/-- Witness for the C2 theorem: in `exCfgC2` (stop-loss enabled, price 90 at
or below stop-loss 95, no exit signals) the held long position of `exStateC3`
is exited through the stop-loss branch as a long sell. -/
theorem exit_priority_witness :
    sellCheck exCfgC2 (symbolsInDay exCfgC2 1) exStateC3 "A" 1
      = sell exCfgC2.sizer.calculate_fee exStateC3 "A" 90 1 .long := by
  have h := (@exit_priority exCfgC2 exStateC3 1 "A" ⟨1, exIdA⟩ exTrA
    (by decide) (by decide)).2 { zeroRow with price := 90, stop_loss := 95 }
    (by decide) (by decide)
  exact h.trans (by decide)

/-- Claim C7 (amended): the day sequence of a run is the union over all
symbols of the dates in that symbol's price column, sorted ascending and
duplicate-free; a positive day limit truncates it to its first day-limit
elements, while an absent day limit, and also a day limit of 0 (Python
truthiness), leaves it untruncated. -/
theorem run_days_char (cfg : Config) :
    (∀ d, d ∈ runDays cfg none ↔ ∃ p ∈ cfg.signals, d ∈ p.2.map Prod.fst) ∧
    (runDays cfg none).Sorted (· ≤ ·) ∧
    (runDays cfg none).Nodup ∧
    runDays cfg (some 0) = runDays cfg none ∧
    (∀ n : Nat, n ≠ 0 → runDays cfg (some n) = (runDays cfg none).take n) := by
  refine ⟨?_, ?_, ?_, rfl, ?_⟩
  · intro d
    unfold runDays tradingDays allDays
    rw [(List.perm_insertionSort _ _).mem_iff, List.mem_dedup, List.mem_flatten]
    constructor
    · rintro ⟨l, hl, hd⟩
      rw [List.mem_map] at hl
      obtain ⟨p, hp, rfl⟩ := hl
      exact ⟨p, hp, hd⟩
    · rintro ⟨p, hp, hd⟩
      exact ⟨p.2.map Prod.fst, List.mem_map.mpr ⟨p, hp, rfl⟩, hd⟩
  · exact List.sorted_insertionSort _ _
  · exact ((List.perm_insertionSort _ _).nodup_iff).mpr (List.nodup_dedup _)
  · intro n hn
    simp only [runDays, if_neg hn]

/-- Counterexample for C7 as stated: a day limit of 0 is given but does not
truncate (Python `if test_days:` is false for 0), so the processed days are
not the first 0 days of the sequence. -/
theorem run_days_take_zero_cex :
    ¬ runDays exCfgC7 (some 0) = (runDays exCfgC7 none).take 0 := by decide

/-- Witness for the C7 theorem: a positive day limit of 1 truncates the
`exCfgC7` day sequence to its first element. -/
theorem run_days_char_witness :
    runDays exCfgC7 (some 1) = (runDays exCfgC7 none).take 1 :=
  (run_days_char exCfgC7).2.2.2.2 1 (by decide)

/-- For a symbol other than the one written, writing a backup price does not
change the effective valuation price. -/
theorem effPrice_aset_ne {cfg : Config} {backups : List (Sym × (ℚ × Day))}
    {sym sym' : Sym} {v : ℚ × Day} {ds : Day} (h : sym' ≠ sym) :
    effPrice cfg (aset backups sym v) sym' ds = effPrice cfg backups sym' ds := by
  unfold effPrice
  rw [alookup_aset_ne _ _ _ _ h]

/-- The account-valuation loop evaluated against the effective prices taken
from the incoming backup dict: it succeeds whenever every held symbol has a
price or a backup, and returns the signed-count weighted sum. -/
theorem calcAV_spec {cfg : Config} {ds : Day} :
    ∀ (l : List (Sym × PosEntry)) (acc : ℚ) (backups : List (Sym × (ℚ × Day))),
      (l.map Prod.fst).Nodup →
      (∀ p ∈ l, (effPrice cfg backups p.1 ds).isSome = true) →
      ∃ b, calcAV cfg ds l acc backups
        = .ok (acc + (l.map
            (fun p => p.2.cnt * (effPrice cfg backups p.1 ds).getD 0)).sum, b) := by
  intro l
  induction l with
  | nil =>
    intro acc backups _ _
    exact ⟨backups, by simp [calcAV]⟩
  | cons p rest ih =>
    intro acc backups hnd hb
    obtain ⟨symbol, pos⟩ := p
    have hx : symbol ∉ rest.map Prod.fst := by
      have := hnd
      simp only [List.map_cons, List.nodup_cons] at this
      exact this.1
    have hndr : (rest.map Prod.fst).Nodup := by
      have := hnd
      simp only [List.map_cons, List.nodup_cons] at this
      exact this.2
    have hne : ∀ q ∈ rest, (q : Sym × PosEntry).1 ≠ symbol := by
      intro q hq hqe
      exact hx (hqe ▸ List.mem_map_of_mem Prod.fst hq)
    cases hrow : lookupRow cfg.signals symbol ds with
    | some row =>
      have heff : effPrice cfg backups symbol ds = some row.price := by
        simp [effPrice, hrow]
      have hbr : ∀ q ∈ rest,
          (effPrice cfg (aset backups symbol (row.price, ds)) q.1 ds).isSome = true := by
        intro q hq
        rw [effPrice_aset_ne (hne q hq)]
        exact hb q (List.mem_cons_of_mem _ hq)
      obtain ⟨b, hrec⟩ := ih (acc + pos.cnt * row.price)
        (aset backups symbol (row.price, ds)) hndr hbr
      refine ⟨b, ?_⟩
      simp only [calcAV, hrow]
      rw [hrec]
      have hmap : rest.map (fun q =>
            q.2.cnt * (effPrice cfg (aset backups symbol (row.price, ds)) q.1 ds).getD 0)
          = rest.map (fun q => q.2.cnt * (effPrice cfg backups q.1 ds).getD 0) :=
        List.map_congr_left (fun q hq => by rw [effPrice_aset_ne (hne q hq)])
      rw [hmap]
      simp only [List.map_cons, List.sum_cons, heff, Option.getD_some]
      rw [add_assoc]
    | none =>
      have hbs := hb (symbol, pos) (List.mem_cons_self _ _)
      rw [show effPrice cfg backups symbol ds
            = Option.map Prod.fst (alookup backups symbol) by simp [effPrice, hrow]] at hbs
      cases hbk : alookup backups symbol with
      | none => rw [hbk] at hbs; simp at hbs
      | some pd =>
        have heff : effPrice cfg backups symbol ds = some pd.1 := by
          simp [effPrice, hrow, hbk]
        have hbr : ∀ q ∈ rest,
            (effPrice cfg (aset backups symbol (pd.1, ds)) q.1 ds).isSome = true := by
          intro q hq
          rw [effPrice_aset_ne (hne q hq)]
          exact hb q (List.mem_cons_of_mem _ hq)
        obtain ⟨b, hrec⟩ := ih (acc + pos.cnt * pd.1)
          (aset backups symbol (pd.1, ds)) hndr hbr
        refine ⟨b, ?_⟩
        simp only [calcAV, hrow, hbk]
        rw [hrec]
        have hmap : rest.map (fun q =>
              q.2.cnt * (effPrice cfg (aset backups symbol (pd.1, ds)) q.1 ds).getD 0)
            = rest.map (fun q => q.2.cnt * (effPrice cfg backups q.1 ds).getD 0) :=
          List.map_congr_left (fun q hq => by rw [effPrice_aset_ne (hne q hq)])
        rw [hmap]
        simp only [List.map_cons, List.sum_cons, heff, Option.getD_some]
        rw [add_assoc]

/-- Claim C8: when every held symbol has either a price today or a recorded
last-known backup price, computing the account value does not fail: it
returns the sum over open positions of signed share count times the
(possibly substituted) effective price, substituting the backup price for
symbols with no data today. -/
theorem account_value_data_gap {cfg : Config} {s : BState} {ds : Day}
    (hnd : (s.owned_shares.map Prod.fst).Nodup)
    (hb : ∀ p ∈ s.owned_shares,
      (effPrice cfg s.backup_close_prices p.1 ds).isSome = true) :
    Except.map Prod.fst (calcAccountValue cfg s ds)
      = .ok ((s.owned_shares.map
          (fun p => p.2.cnt * (effPrice cfg s.backup_close_prices p.1 ds).getD 0)).sum) := by
  obtain ⟨b, hcv⟩ := calcAV_spec s.owned_shares 0 s.backup_close_prices hnd hb
  unfold calcAccountValue
  rw [hcv]
  simp [Except.map]

/-- Witness for the C8 theorem: in `exStateC8` the held symbol has no day-5
price, so valuation at day 5 succeeds using the backup price 7, giving
2 x 7 = 14. -/
theorem account_value_data_gap_witness :
    Except.map Prod.fst (calcAccountValue exCfgC8 exStateC8 5) = .ok 14 :=
  (account_value_data_gap (by decide) (by decide)).trans (by decide)

/-- Claim C10: the bankruptcy condition is checked only at the single
post-exit checkpoint of each day.  First part: run returns the bankruptcy
error exactly when some day is reached with all earlier days processed and
its sell phase succeeds leaving cash negative.  Second part: a day whose
entry phase leaves cash negative still completes without error and records
its daily snapshot (the abort can then only happen at the next processed
day's post-exit checkpoint, and only if cash is still negative there). -/
theorem bankruptcy_checkpoint (cfg : Config) (m : BState) (t : Option Nat) :
    ((∃ q, Backtester.run ⟨cfg, m⟩ t = .error (.bankrupt q)) ↔
      ∃ pre ds post s s', runDays cfg t = pre ++ ds :: post ∧
        foldE (processDay cfg) (resetState cfg) pre = .ok s ∧
        sellPhase cfg s ds = .ok s' ∧ s'.available_money < 0) ∧
    (∀ s ds s1 cav s2 s3 s4,
      sellPhase cfg s ds = .ok s1 → ¬ s1.available_money < 0 →
      calcAccountValue cfg s1 ds = .ok (cav, s2) →
      foldE (fun st tx => buy st tx ds) s2 (buysOf cfg s2 cav ds) = .ok s3 →
      s3.available_money < 0 →
      summarizeDay cfg s3 ds = .ok s4 →
      processDay cfg s ds = .ok s4 ∧ (alookup s4.account_value ds).isSome = true) := by
  constructor
  · constructor
    · rintro ⟨q, hrun⟩
      have hfold : foldE (processDay cfg) (resetState cfg) (runDays cfg t)
          = .error (.bankrupt q) := by
        unfold Backtester.run at hrun
        cases hf : foldE (processDay cfg) (resetState cfg) (runDays cfg t) with
        | error e =>
          simp only [hf] at hrun
          injection hrun with he
          rw [he]
        | ok st =>
          simp only [hf] at hrun
          exact Except.noConfusion hrun
      obtain ⟨pre, ds, post, s, hsplit, hpre, hday⟩ :=
        (foldE_error_iff _ _ _).mp hfold
      obtain ⟨s', hsell, hneg, -⟩ := processDay_bankrupt_iff.mp hday
      exact ⟨pre, ds, post, s, s', hsplit, hpre, hsell, hneg⟩
    · rintro ⟨pre, ds, post, s, s', hsplit, hpre, hsell, hneg⟩
      have hday : processDay cfg s ds = .error (.bankrupt s'.available_money) :=
        processDay_bankrupt_iff.mpr ⟨s', hsell, hneg, rfl⟩
      exact ⟨s'.available_money, run_error_of_day hsplit hpre hday⟩
  · intro s ds s1 cav s2 s3 s4 hsp hnn hcv hbf hneg hsum
    constructor
    · unfold processDay
      simp only [hsp, if_neg hnn, hcv, hbf]
      exact hsum
    · unfold summarizeDay at hsum
      cases hcv2 : calcAccountValue cfg s3 ds with
      | error e =>
        rw [hcv2] at hsum
        exact Except.noConfusion hsum
      | ok p =>
        obtain ⟨av, sx⟩ := p
        simp only [hcv2] at hsum
        injection hsum with hs4
        subst hs4
        rw [alookup_aset_self]
        rfl

/-- Witness for the C10 theorem: on day 1 of the `exCfgC10` run the buy fee
leaves cash at -10010, yet the day completes without error and records its
snapshot; the run aborts only at day 2's post-exit checkpoint. -/
theorem bankruptcy_checkpoint_witness :
    processDay exCfgC10 (resetState exCfgC10) 1 = .ok exC10S4 ∧
    (alookup exC10S4.account_value 1).isSome = true :=
  (bankruptcy_checkpoint exCfgC10 (resetState exCfgC10) none).2
    (resetState exCfgC10) 1 (resetState exCfgC10) 0 exC10S2 exC10S3 exC10S4
    (by decide) (by decide) (by decide) (by decide) (by decide) (by decide)

theorem shortEntryInv_sell {fee_fn : ℚ → ℚ} {s : BState} {symbol : Sym}
    {price : ℚ} {ds : Day} {et : TType} {s' : BState}
    (hinv : shortEntryInv s) (h : sell fee_fn s symbol price ds et = .ok s') :
    shortEntryInv s' := by
  cases hpos : alookup s.owned_shares symbol with
  | none =>
    simp only [sell, hpos] at h
    exact Except.noConfusion h
  | some pos =>
    cases htr : alookup s.trades pos.trx_id with
    | none =>
      simp only [sell, hpos, htr] at h
      exact Except.noConfusion h
    | some trade =>
      cases et with
      | long =>
        simp only [sell, hpos, htr] at h
        injection h with hs'
        subst hs'
        intro id tr h1 h2 h3
        by_cases hid : id = pos.trx_id
        · subst hid
          rw [alookup_aset_self] at h1
          injection h1 with htr'
          rw [← htr'] at h3
          simp at h3
        · rw [alookup_aset_ne _ _ _ _ hid] at h1
          exact hinv id tr h1 h2 h3
      | short =>
        cases hms : alookup s.money_from_short pos.trx_id with
        | none =>
          simp only [sell, hpos, htr, hms] at h
          exact Except.noConfusion h
        | some mny =>
          simp only [sell, hpos, htr, hms] at h
          injection h with hs'
          subst hs'
          intro id tr h1 h2 h3
          by_cases hid : id = pos.trx_id
          · subst hid
            rw [alookup_aset_self] at h1
            injection h1 with htr'
            rw [← htr'] at h3
            simp at h3
          · rw [alookup_aset_ne _ _ _ _ hid] at h1
            rw [alookup_aremove_ne _ _ _ hid]
            exact hinv id tr h1 h2 h3

theorem shortEntryInv_buy {s : BState} {trx : Trx} {ds : Day} {s' : BState}
    (hinv : shortEntryInv s) (h : buy s trx ds = .ok s') : shortEntryInv s' := by
  unfold buy at h
  by_cases hdup : (alookup s.owned_shares trx.symbol).isSome
  · rw [if_pos hdup] at h
    exact Except.noConfusion h
  · rw [if_neg hdup] at h
    cases htt : trx.entry_type with
    | long =>
      simp only [htt] at h
      injection h with hs'
      subst hs'
      intro id tr h1 h2 h3
      by_cases hid : id = ⟨ds, trx.symbol, TType.long⟩
      · subst hid
        rw [alookup_aset_self] at h1
        injection h1 with htr'
        rw [← htr'] at h2
        simp at h2
      · rw [alookup_aset_ne _ _ _ _ hid] at h1
        exact hinv id tr h1 h2 h3
    | short =>
      simp only [htt] at h
      injection h with hs'
      subst hs'
      intro id tr h1 h2 h3
      by_cases hid : id = ⟨ds, trx.symbol, TType.short⟩
      · subst hid
        rw [alookup_aset_self]
        rfl
      · rw [alookup_aset_ne _ _ _ _ hid] at h1
        rw [alookup_aset_ne _ _ _ _ hid]
        exact hinv id tr h1 h2 h3

theorem shortEntryInv_sellCheck {cfg : Config} {today : List Sym} {s : BState}
    {symbol : Sym} {ds : Day} {s' : BState}
    (hinv : shortEntryInv s) (h : sellCheck cfg today s symbol ds = .ok s') :
    shortEntryInv s' := by
  unfold sellCheck at h
  by_cases hmem : symbol ∈ today
  · rw [if_pos hmem] at h
    cases hrow : lookupRow cfg.signals symbol ds with
    | none =>
      simp only [hrow] at h
      exact Except.noConfusion h
    | some row =>
      simp only [hrow] at h
      by_cases hl : row.exit_long = 1
      · rw [if_pos hl] at h
        exact shortEntryInv_sell hinv h
      · rw [if_neg hl] at h
        by_cases hs2 : row.exit_short = 1
        · rw [if_pos hs2] at h
          exact shortEntryInv_sell hinv h
        · rw [if_neg hs2] at h
          cases hsl : cfg.stop_loss with
          | false =>
            simp only [hsl, Bool.false_eq_true, if_false] at h
            injection h with hs'
            subst hs'
            exact hinv
          | true =>
            simp only [hsl, if_true] at h
            cases hpos : alookup s.owned_shares symbol with
            | none =>
              simp only [hpos] at h
              exact Except.noConfusion h
            | some pos =>
              simp only [hpos] at h
              cases htr : alookup s.trades pos.trx_id with
              | none =>
                simp only [htr] at h
                exact Except.noConfusion h
              | some trade =>
                simp only [htr] at h
                by_cases h1 : trade.ttype = TType.long ∧ row.price ≤ row.stop_loss
                · rw [if_pos h1] at h
                  exact shortEntryInv_sell hinv h
                · rw [if_neg h1] at h
                  by_cases h2 : trade.ttype = TType.short ∧ row.price ≥ row.stop_loss
                  · rw [if_pos h2] at h
                    exact shortEntryInv_sell hinv h
                  · rw [if_neg h2] at h
                    injection h with hs'
                    subst hs'
                    exact hinv
  · rw [if_neg hmem] at h
    injection h with hs'
    subst hs'
    exact hinv

theorem shortEntryInv_sellPhase {cfg : Config} {s : BState} {ds : Day} {s1 : BState}
    (hinv : shortEntryInv s) (hsp : sellPhase cfg s ds = .ok s1) :
    shortEntryInv s1 := by
  unfold sellPhase at hsp
  exact foldE_pres (fun st sym st' hp hok => shortEntryInv_sellCheck hp hok)
    _ s s1 hinv hsp

theorem calcAccountValue_shape {cfg : Config} {s : BState} {ds : Day} {v : ℚ}
    {s' : BState} (h : calcAccountValue cfg s ds = .ok (v, s')) :
    ∃ b, s' = { s with backup_close_prices := b } := by
  unfold calcAccountValue at h
  cases hcv : calcAV cfg ds s.owned_shares 0 s.backup_close_prices with
  | error e =>
    rw [hcv] at h
    exact Except.noConfusion h
  | ok p =>
    obtain ⟨v2, b2⟩ := p
    simp only [hcv] at h
    injection h with hp
    exact ⟨b2, (congrArg Prod.snd hp).symm⟩

theorem shortEntryInv_summarize {cfg : Config} {s : BState} {ds : Day} {s' : BState}
    (hinv : shortEntryInv s) (h : summarizeDay cfg s ds = .ok s') :
    shortEntryInv s' := by
  unfold summarizeDay at h
  cases hcv : calcAccountValue cfg s ds with
  | error e =>
    rw [hcv] at h
    exact Except.noConfusion h
  | ok p =>
    obtain ⟨av, s1⟩ := p
    simp only [hcv] at h
    injection h with hs'
    subst hs'
    obtain ⟨b, hb⟩ := calcAccountValue_shape hcv
    subst hb
    exact hinv

theorem shortEntryInv_processDay {cfg : Config} {s : BState} {ds : Day} {s' : BState}
    (hinv : shortEntryInv s) (h : processDay cfg s ds = .ok s') :
    shortEntryInv s' := by
  unfold processDay at h
  cases hsp : sellPhase cfg s ds with
  | error e =>
    simp only [hsp] at h
    exact Except.noConfusion h
  | ok s1 =>
    simp only [hsp] at h
    have hinv1 : shortEntryInv s1 := shortEntryInv_sellPhase hinv hsp
    by_cases hneg : s1.available_money < 0
    · rw [if_pos hneg] at h
      exact Except.noConfusion h
    · rw [if_neg hneg] at h
      cases hcv : calcAccountValue cfg s1 ds with
      | error e =>
        simp only [hcv] at h
        exact Except.noConfusion h
      | ok p =>
        obtain ⟨cav, s2⟩ := p
        simp only [hcv] at h
        obtain ⟨b, hb⟩ := calcAccountValue_shape hcv
        subst hb
        cases hbf : foldE (fun st tx => buy st tx ds)
            { s1 with backup_close_prices := b }
            (buysOf cfg { s1 with backup_close_prices := b } cav ds) with
        | error e =>
          rw [hbf] at h
          exact Except.noConfusion h
        | ok s3 =>
          rw [hbf] at h
          have hinv2 : shortEntryInv { s1 with backup_close_prices := b } := hinv1
          have hinv3 : shortEntryInv s3 :=
            foldE_pres (fun st tx st' hp hok => shortEntryInv_buy hp hok)
              _ _ s3 hinv2 hbf
          exact shortEntryInv_summarize hinv3 h

/-- Counterexample for C5 as stated: in the `exCfgC5` run, at the point
between the day-2 and day-3 steps the short-proceeds entry of the day-1
short trade still exists although that trade is closed (it was exited
through the exit_long branch), so a short-proceeds entry can exist whose
trade is not an open short. -/
theorem short_proceeds_iff_cex :
    runDays exCfgC5 none = [1, 2, 3] ∧
    foldE (processDay exCfgC5) (resetState exCfgC5) [1, 2] = .ok exC5Mid ∧
    (alookup exC5Mid.money_from_short exC5Id).isSome = true ∧
    Option.map Trade.sell_ds (alookup exC5Mid.trades exC5Id) = some (some 2) :=
  ⟨by decide, by decide, by decide, by decide⟩

/-- Claim C5 (amended): a short-proceeds entry is created exactly at short
entry, but it is removed only when the position is closed through a
short-type exit; a held short closed through the exit_long branch leaves its
entry behind, so only one direction of the iff holds at every point between
day-processing steps of a run: every open short trade has its
short-proceeds entry. -/
theorem short_entry_open_short {cfg : Config} {days : List Day} {s : BState}
    (h : foldE (processDay cfg) (resetState cfg) days = .ok s) :
    shortEntryInv s := by
  have h0 : shortEntryInv (resetState cfg) := by
    intro id tr h1 h2 h3
    simp [resetState, alookup] at h1
  exact foldE_pres (fun st ds st' hp hok => shortEntryInv_processDay hp hok)
    days _ s h0 h

/-- Witness for the C5 theorem: after day 1 of the `exCfgC5` run the day-1
short trade is open, and its short-proceeds entry exists. -/
theorem short_entry_open_short_witness :
    (alookup exC5Day1.money_from_short exC5Id).isSome = true :=
  @short_entry_open_short exCfgC5 [1] exC5Day1 (by decide) exC5Id
    ⟨1, TType.short, 10, 9, none, none, none, none⟩
    (by decide) (by decide) (by decide)

/-- Claim C9: with the fixed signal panel and the pure sizer held in the
configuration, two calls to run with the same day limit return identical
output tables and trade ledgers whatever mutable state was left behind:
all mutable state is reset at the start of each run. -/
theorem run_ignores_prior_state (cfg : Config) (m1 m2 : BState) (t : Option Nat) :
    Backtester.run ⟨cfg, m1⟩ t = Backtester.run ⟨cfg, m2⟩ t := rfl

end Trading8
